import Mathlib

/-! # Airspace geofencing of `script.js`

A shallow embedding of the geofencing core of `src/script.js`:

* the ESRI-to-feature conversion and the style function of `loadZones`;
* the zone lookup loop of `analyzeAirspace`;
* the ray-casting test `isPointInPoly`.

JavaScript numbers are modelled by exact rationals.  A JavaScript exception
(reading a field of `undefined`) is an `Except.error`; leaving exact
arithmetic by dividing by zero is reported as an error of its own, so that
the guard in front of the division can be stated.
-/

namespace Drone

/-! ## Data model -/

/-- A ring is an array of `[x, y]` coordinate pairs. -/
abbrev Ring := List (ℚ × ℚ)

/-- What can go wrong while evaluating the embedded code. -/
inductive JsError where
  /-- A field or an index of `undefined` was read (a JavaScript `TypeError`). -/
  | typeError
  /-- A quotient with denominator zero was evaluated. -/
  | divisionByZero
  deriving DecidableEq, Repr

/-- An attribute object: a field that is absent (or `null`) reads as `none`. -/
abbrev Attrs := String → Option String

/-- A record of `json.features`: `attributes`, and `geometry.rings` when the
record has a geometry. -/
structure RawRecord where
  attributes : Attrs
  geometry : Option (List Ring)

/-- An element of `globalZones`: `properties` and `geometry.coordinates`. -/
structure Feature where
  properties : Attrs
  coordinates : List Ring

/-- The object returned by the style function of `loadZones`. -/
structure Style where
  color : String
  weight : ℚ
  opacity : ℚ
  fillColor : String
  fillOpacity : ℚ

/-- The three messages `analyzeAirspace` can end with once the point is known. -/
inductive Verdict where
  /-- The branch "RESTRICTED AIRSPACE", with the value of `violation`. -/
  | restricted (violation : Attrs)
  /-- The branch "AIRSPACE CLEAR". -/
  | clear
  /-- The `catch` branch "NETWORK ERROR". -/
  | networkError

/-! ## `isPointInPoly` -/

/-- The read `poly[k]` followed by a read of its components: an index outside
the array gives `undefined`, whose component read throws. -/
def vertexAt (poly : Ring) (k : Int) : Except JsError (ℚ × ℚ) :=
  if k < 0 then .error .typeError
  else match poly.get? k.toNat with
    | some v => .ok v
    | none => .error .typeError

/-- The expression bound to `intersect` in the loop body, for `vi = poly[i]`
and `vj = poly[j]`.  The right operand of `&&` is evaluated only when the left
one is true. -/
def intersect (x y : ℚ) (vi vj : ℚ × ℚ) : Except JsError Bool :=
  if (decide (vi.2 > y) != decide (vj.2 > y)) then
    if vj.2 - vi.2 = 0 then .error .divisionByZero
    else .ok (decide (x < (vj.1 - vi.1) * (y - vi.2) / (vj.2 - vi.2) + vi.1))
  else .ok false

/-- The loop `for (let i = 0, j = poly.length - 1; i < poly.length; j = i++)`
of `isPointInPoly`, from the state `(i, j, inside)`. -/
def isPointInPolyLoop (x y : ℚ) (poly : Ring) (i : Nat) (j : Int) (inside : Bool) :
    Except JsError Bool :=
  if i < poly.length then
    match vertexAt poly i with
    | .error e => .error e
    | .ok vi =>
      match vertexAt poly j with
      | .error e => .error e
      | .ok vj =>
        match intersect x y vi vj with
        | .error e => .error e
        | .ok b => isPointInPolyLoop x y poly (i + 1) i (if b then !inside else inside)
  else .ok inside
termination_by poly.length - i

/-- The function `isPointInPoly(x, y, poly)`. -/
def isPointInPoly (x y : ℚ) (poly : Ring) : Except JsError Bool :=
  isPointInPolyLoop x y poly 0 ((poly.length : Int) - 1) false

/-! ## The zone lookup of `analyzeAirspace` -/

/-- The loop `for (let feature of globalZones)` with its `break`: the value of
`violation` when the loop ends, or the exception that ended it.  A feature
whose `coordinates` array is empty hands `undefined` to `isPointInPoly`, which
throws on reading `poly.length`. -/
def checkZones (lon lat : ℚ) : List Feature → Except JsError (Option Attrs)
  | [] => .ok none
  | feature :: rest =>
    match feature.coordinates.head? with
    | none => .error .typeError
    | some ring =>
      match isPointInPoly lon lat ring with
      | .error e => .error e
      | .ok true => .ok (some feature.properties)
      | .ok false => checkZones lon lat rest

/-- The part of `analyzeAirspace` that follows the geocoding: the zone loop
inside `try`, then `if (violation)`; an attribute object is truthy. -/
def analyzeAirspace (globalZones : List Feature) (lon lat : ℚ) : Verdict :=
  match checkZones lon lat globalZones with
  | .error _ => .networkError
  | .ok (some violation) => .restricted violation
  | .ok none => .clear

/-! ## `loadZones` -/

/-- The arrow function mapped over `json.features`: reading `f.geometry.rings`
throws when the record has no geometry. -/
def toFeature (f : RawRecord) : Except JsError Feature :=
  match f.geometry with
  | none => .error .typeError
  | some rings => .ok ⟨f.attributes, rings⟩

/-- The call `json.features.map(...)`: records are converted in order and the
first exception ends the conversion. -/
def convertFeatures : List RawRecord → Except JsError (List Feature)
  | [] => .ok []
  | f :: fs =>
    match toFeature f with
    | .error e => .error e
    | .ok g =>
      match convertFeatures fs with
      | .error e => .error e
      | .ok gs => .ok (g :: gs)

/-- The value of `globalZones` after `loadZones`: the converted features, or
the initial `[]` when the `catch` branch ran. -/
def loadZones (features : List RawRecord) : List Feature :=
  match convertFeatures features with
  | .ok gs => gs
  | .error _ => []

/-- The expression `v || ''` for a text attribute: `undefined`, `null` and
the empty string are falsy. -/
def orEmpty (v : Option String) : String :=
  match v with
  | some s => if s = "" then "" else s
  | none => ""

/-- Substring search on characters, the model of `String.prototype.includes`. -/
def includesChars : List Char → List Char → Bool
  | [], s => s.isEmpty
  | c :: t, s => s.isPrefixOf (c :: t) || includesChars t s

/-- The call `t.includes(s)`. -/
def includes (t s : String) : Bool := includesChars t.data s.data

/-- The `style` callback of `loadZones`. -/
def style (f : Feature) : Style :=
  let t := orEmpty (f.properties "空域顏色") ++ orEmpty (f.properties "空域名稱")
  let color := if includes t "紅" || includes t "機場" then "#ff453a" else "#ffd60a"
  ⟨color, 1, 3 / 5, color, 3 / 20⟩

/-! ## Index form of the loop -/

/-- The wrapping predecessor of index `i` in a ring of `n` vertices: the value
of `j` while the loop body runs for `i`. -/
def predIdx (n i : Nat) : Nat := (i + n - 1) % n

/-- The vertex `poly[i]` for an index inside the ring. -/
def vtx (poly : Ring) (i : Nat) : ℚ × ℚ := poly.getD i (0, 0)

/-- The value of `intersect` as a plain boolean, with the code's expression
`(xj - xi) * (y - yi) / (yj - yi) + xi`. -/
def toggles (x y : ℚ) (vi vj : ℚ × ℚ) : Bool :=
  (decide (vi.2 > y) != decide (vj.2 > y)) &&
    decide (x < (vj.1 - vi.1) * (y - vi.2) / (vj.2 - vi.2) + vi.1)

/-- The value of `inside` once the loop body has run for the indices below `k`. -/
def insideUpTo (x y : ℚ) (poly : Ring) : Nat → Bool
  | 0 => false
  | k + 1 =>
    let b := insideUpTo x y poly k
    if toggles x y (vtx poly k) (vtx poly (predIdx poly.length k)) then !b else b

/-! ## Notions of the specification -/

/-- The x-coordinate at which the specification intersects the edge from
`vj` to `vi` with the horizontal line at height `y`. -/
def specXIntersect (y : ℚ) (vi vj : ℚ × ℚ) : ℚ :=
  vj.1 + (vi.1 - vj.1) * (y - vj.2) / (vi.2 - vj.2)

/-- The even-odd ray casting of the specification: `inside` starts false and
is toggled for each edge `(v[j], v[i])`, `j` the wrapping predecessor of `i`,
when exactly one of `yi > y`, `yj > y` holds and `x` is left of the
intersection. -/
def rayCastSpec (x y : ℚ) (v : Ring) : Bool :=
  (List.range v.length).foldl
    (fun inside i =>
      let vi := vtx v i
      let vj := vtx v (predIdx v.length i)
      if xor (decide (vi.2 > y)) (decide (vj.2 > y)) && decide (x < specXIntersect y vi vj)
      then !inside else inside)
    false

/-- The first ring of the zone exists and contains the point according to
`isPointInPoly`. -/
def FirstRingContains (lon lat : ℚ) (f : Feature) : Prop :=
  ∃ ring, f.coordinates.head? = some ring ∧ isPointInPoly lon lat ring = .ok true

/-- The first ring of the zone exists and does not contain the point. -/
def FirstRingExcludes (lon lat : ℚ) (f : Feature) : Prop :=
  ∃ ring, f.coordinates.head? = some ring ∧ isPointInPoly lon lat ring = .ok false

/-- The text of the specification's classification rule: the value of the
colour field followed by the value of the name field, each empty when absent. -/
def zoneText (a : Attrs) : String :=
  (a "空域顏色").getD "" ++ (a "空域名稱").getD ""

/-- The text `t` contains `s` as a substring. -/
def HasSubstring (t s : String) : Prop :=
  ∃ before after : List Char, t.data = before ++ s.data ++ after

/-- A record the specification keeps: it has a geometry whose first ring
has at least three points. -/
def usableRecord (r : RawRecord) : Bool :=
  match r.geometry with
  | some (ring :: _) => decide (3 ≤ ring.length)
  | _ => false

/-- The store the specification describes: the usable records, in order. -/
def specStore (records : List RawRecord) : List Feature :=
  (records.filter usableRecord).map (fun r => ⟨r.attributes, r.geometry.getD []⟩)

/-- The lookup claim as the specification words it: when some zone's first
ring contains the point, the loop ends with the properties of the zone of
smallest index among those. -/
def SelectsFirstMatch (store : List Feature) (lon lat : ℚ) : Prop :=
  (∃ f ∈ store, FirstRingContains lon lat f) →
    ∃ k z, store[k]? = some z ∧ FirstRingContains lon lat z ∧
      (∀ (i : Nat) (f : Feature), i < k → store[i]? = some f →
        ¬ FirstRingContains lon lat f) ∧
      checkZones lon lat store = .ok (some z.properties)

/-- The 10 by 10 square of the specification. -/
def square : Ring := [(0, 0), (0, 10), (10, 10), (10, 0)]

/-- The L-shaped ring. -/
def ellRing : Ring := [(0, 0), (0, 10), (5, 10), (5, 5), (10, 5), (10, 0)]

/-- An attribute object without fields. -/
def noAttrs : Attrs := fun _ => none

/-- An attribute object with a colour and a name. -/
def mkAttrs (colour name : String) : Attrs := fun k =>
  if k = "空域顏色" then some colour else if k = "空域名稱" then some name else none

/-- A zone whose `rings` array is empty. -/
def ringlessZone : Feature := ⟨noAttrs, []⟩

/-- A zone bounded by the square. -/
def squareZone : Feature := ⟨mkAttrs "紅" "Zone A", [square]⟩

/-- A zone far from the point `(5, 5)`. -/
def farZone : Feature := ⟨mkAttrs "黃" "Zone C", [[(20, 20), (20, 30), (30, 30), (30, 20)]]⟩

/-- A zone bounded by a square of side 200 around the origin. -/
def bigZone : Feature :=
  ⟨mkAttrs "黃" "Zone B", [[(-100, -100), (-100, 100), (100, 100), (100, -100)]]⟩

/-- A record whose only ring has two points. -/
def twoPointRecord : RawRecord := ⟨noAttrs, some [[(0, 0), (1, 3)]]⟩
/-- A record without geometry. -/
def noGeometryRecord : RawRecord := ⟨noAttrs, none⟩
/-- A record bounded by the square. -/
def squareRecord : RawRecord := ⟨mkAttrs "紅" "Zone A", some [square]⟩

/-! ## The loop in closed form -/

theorem vertexAt_ofNat (poly : Ring) (i : Nat) (h : i < poly.length) :
    vertexAt poly (i : Int) = .ok (vtx poly i) := by
  have h0 : ¬ ((i : Int) < 0) := by omega
  simp [vertexAt, h0, vtx, List.getD, List.getElem?_eq_getElem h]

theorem intersect_eq_toggles (x y : ℚ) (vi vj : ℚ × ℚ) :
    intersect x y vi vj = .ok (toggles x y vi vj) := by
  unfold intersect toggles
  by_cases hc : (decide (vi.2 > y) != decide (vj.2 > y)) = true
  · have hne : vj.2 - vi.2 ≠ 0 := by
      intro h0
      have : vj.2 = vi.2 := by linarith
      rw [this] at hc
      simp at hc
    simp [hc, hne]
  · simp [hc]

theorem predIdx_lt (n i : Nat) (h : 0 < n) : predIdx n i < n :=
  Nat.mod_lt _ h

theorem predIdx_succ (n i : Nat) (h : i < n) : predIdx n (i + 1) = i := by
  unfold predIdx
  have : i + 1 + n - 1 = i + n := by omega
  rw [this, Nat.add_mod_right, Nat.mod_eq_of_lt h]

theorem predIdx_zero (n : Nat) (h : 0 < n) : predIdx n 0 = n - 1 := by
  unfold predIdx
  rw [Nat.zero_add, Nat.mod_eq_of_lt (by omega)]

theorem loop_eq_insideUpTo (x y : ℚ) (poly : Ring) :
    ∀ (k i : Nat) (j : Int), poly.length - i = k → i ≤ poly.length →
      (i < poly.length → j = (predIdx poly.length i : Int)) →
      isPointInPolyLoop x y poly i j (insideUpTo x y poly i)
        = .ok (insideUpTo x y poly poly.length) := by
  intro k
  induction k with
  | zero =>
    intro i j hk hi _
    have : i = poly.length := by omega
    subst this
    rw [isPointInPolyLoop]
    simp
  | succ k ih =>
    intro i j hk hi hj
    have hlt : i < poly.length := by omega
    rw [isPointInPolyLoop]
    rw [if_pos hlt, vertexAt_ofNat poly i hlt, hj hlt,
      vertexAt_ofNat poly _ (predIdx_lt _ _ (by omega))]
    simp only [intersect_eq_toggles]
    have := ih (i + 1) (i : Int) (by omega) (by omega)
      (fun h => by rw [predIdx_succ _ _ hlt])
    simpa [insideUpTo] using this

theorem isPointInPoly_eq (x y : ℚ) (poly : Ring) :
    isPointInPoly x y poly = .ok (insideUpTo x y poly poly.length) := by
  unfold isPointInPoly
  have := loop_eq_insideUpTo x y poly poly.length 0 ((poly.length : Int) - 1) (by omega)
    (by omega) (fun h => by rw [predIdx_zero _ h]; omega)
  simpa [insideUpTo] using this

/-! ## Refinement of the specified ray casting -/

theorem xIntersect_eq_spec (y : ℚ) (vi vj : ℚ × ℚ) (h : vi.2 ≠ vj.2) :
    (vj.1 - vi.1) * (y - vi.2) / (vj.2 - vi.2) + vi.1 = specXIntersect y vi vj := by
  unfold specXIntersect
  have h1 : vj.2 - vi.2 ≠ 0 := fun h0 => h (by linarith)
  have h2 : vi.2 - vj.2 ≠ 0 := fun h0 => h (by linarith)
  field_simp
  ring

theorem toggles_eq_spec (x y : ℚ) (vi vj : ℚ × ℚ) :
    toggles x y vi vj
      = (xor (decide (vi.2 > y)) (decide (vj.2 > y)) && decide (x < specXIntersect y vi vj)) := by
  unfold toggles
  by_cases h : vi.2 = vj.2
  · simp [h]
  · rw [xIntersect_eq_spec y vi vj h]

theorem rayCastSpec_eq_insideUpTo (x y : ℚ) (poly : Ring) :
    ∀ k, (List.range k).foldl
      (fun inside i =>
        let vi := vtx poly i
        let vj := vtx poly (predIdx poly.length i)
        if xor (decide (vi.2 > y)) (decide (vj.2 > y)) && decide (x < specXIntersect y vi vj)
        then !inside else inside)
      false = insideUpTo x y poly k := by
  intro k
  induction k with
  | zero => rfl
  | succ k ih =>
    rw [List.range_succ, List.foldl_append, ih]
    simp only [List.foldl_cons, List.foldl_nil, insideUpTo, toggles_eq_spec]

/-- C3: over exact arithmetic `isPointInPoly` returns, for every ring and every
point, the verdict of the even-odd ray casting of the specification; edge by
edge, the code's expression `(xj - xi) * (y - yi) / (yj - yi) + xi` decides the
same toggle as the specified `xj + (xi - xj) * (y - yj) / (yi - yj)`. -/
theorem isPointInPoly_refines_rayCastSpec (x y : ℚ) (poly : Ring) :
    isPointInPoly x y poly = .ok (rayCastSpec x y poly) ∧
      ∀ vi vj : ℚ × ℚ, intersect x y vi vj =
        .ok (xor (decide (vi.2 > y)) (decide (vj.2 > y))
          && decide (x < specXIntersect y vi vj)) := by
  constructor
  · rw [isPointInPoly_eq]
    unfold rayCastSpec
    rw [rayCastSpec_eq_insideUpTo]
  · intro vi vj
    rw [intersect_eq_toggles, toggles_eq_spec]

/-- C10: for every ring of coordinate pairs, the empty ring and rings with
horizontal or zero-length edges included, `isPointInPoly` ends with a boolean:
no vertex read leaves the ring and no quotient with denominator zero is
evaluated, for any pair of vertices the division is guarded. -/
theorem isPointInPoly_raises_no_error (x y : ℚ) (poly : Ring) :
    (∃ verdict : Bool, isPointInPoly x y poly = .ok verdict) ∧
      ∀ vi vj : ℚ × ℚ, ∃ b : Bool, intersect x y vi vj = .ok b :=
  ⟨⟨_, isPointInPoly_eq x y poly⟩, fun vi vj => ⟨_, intersect_eq_toggles x y vi vj⟩⟩

theorem isPointInPoly_square_centre : isPointInPoly 5 5 square = .ok true := by
  rw [isPointInPoly_eq]
  norm_num [square, insideUpTo, toggles, vtx, predIdx]

theorem not_contains_of_excludes {lon lat : ℚ} {f : Feature}
    (h : FirstRingExcludes lon lat f) : ¬ FirstRingContains lon lat f := by
  rintro ⟨r, hr, hc⟩
  obtain ⟨r2, hr2, he⟩ := h
  rw [hr] at hr2
  cases hr2
  rw [hc] at he
  cases he

theorem excludes_of_not_contains {lon lat : ℚ} {f : Feature} (hring : f.coordinates ≠ [])
    (h : ¬ FirstRingContains lon lat f) : FirstRingExcludes lon lat f := by
  cases hc : f.coordinates with
  | nil => exact absurd hc hring
  | cons r rs =>
    refine ⟨r, by rw [hc]; rfl, ?_⟩
    rw [isPointInPoly_eq]
    cases hb : insideUpTo lon lat r r.length with
    | false => rfl
    | true => exact absurd ⟨r, by simp [hc], by rw [isPointInPoly_eq, hb]⟩ h

theorem checkZones_first_match (lon lat : ℚ) (z : Feature) (post : List Feature)
    (hz : FirstRingContains lon lat z) :
    ∀ pre : List Feature, (∀ f ∈ pre, FirstRingExcludes lon lat f) →
      checkZones lon lat (pre ++ z :: post) = .ok (some z.properties) := by
  intro pre
  induction pre with
  | nil =>
    intro _
    obtain ⟨r, hr, hc⟩ := hz
    simp [checkZones, hr, hc]
  | cons f pre ih =>
    intro h
    obtain ⟨r, hr, he⟩ := h f (by simp)
    have := ih (fun g hg => h g (by simp [hg]))
    simp [checkZones, hr, he, this]

/-- C1 (amended): when the zone at store index `k` has a first ring that
contains the point, no zone of smaller index has one that contains it, and
every zone of smaller index has at least one ring, the lookup loop ends with
the properties of the zone at index `k`, whatever zones follow it. -/
theorem checkZones_selects_first_match (store : List Feature) (lon lat : ℚ) (k : Nat)
    (z : Feature) (hk : store[k]? = some z) (hz : FirstRingContains lon lat z)
    (hmin : ∀ (i : Nat) (f : Feature), i < k → store[i]? = some f →
      ¬ FirstRingContains lon lat f)
    (hring : ∀ (i : Nat) (f : Feature), i < k → store[i]? = some f → f.coordinates ≠ []) :
    checkZones lon lat store = .ok (some z.properties) ∧
      analyzeAirspace store lon lat = .restricted z.properties := by
  have hlt : k < store.length := by
    rcases Nat.lt_or_ge k store.length with h | h
    · exact h
    · rw [List.getElem?_eq_none h] at hk; cases hk
  have hsplit : store = store.take k ++ z :: store.drop (k + 1) := by
    have hz2 : store[k] = z := by
      rw [List.getElem?_eq_getElem hlt] at hk
      exact Option.some.inj hk
    rw [← hz2, ← List.drop_eq_getElem_cons hlt, List.take_append_drop]
  have hpre : ∀ f ∈ store.take k, FirstRingExcludes lon lat f := by
    intro f hf
    obtain ⟨i, hi, rfl⟩ := List.getElem_of_mem hf
    have hik : i < k := by
      have := List.length_take_le k store
      simp at hi; omega
    have hget : store[i]? = some ((store.take k)[i]) := by
      rw [List.getElem_take, List.getElem?_eq_getElem]
    exact excludes_of_not_contains (hring i _ hik hget) (hmin i _ hik hget)
  have hc := checkZones_first_match lon lat z (store.drop (k + 1)) hz (store.take k) hpre
  rw [← hsplit] at hc
  exact ⟨hc, by simp [analyzeAirspace, hc]⟩

theorem checkZones_selects_first_match_witness :
    checkZones 5 5 [farZone, bigZone, squareZone] = .ok (some bigZone.properties) ∧
      analyzeAirspace [farZone, bigZone, squareZone] 5 5 = .restricted bigZone.properties :=
  checkZones_selects_first_match [farZone, bigZone, squareZone] 5 5 1 bigZone rfl
    ⟨_, rfl, by
      rw [isPointInPoly_eq]
      norm_num [insideUpTo, toggles, vtx, predIdx]⟩
    (by
      intro i f hi hf
      have h0 : i = 0 := by omega
      subst h0
      cases hf
      rintro ⟨r, hr, hc⟩
      cases hr
      rw [isPointInPoly_eq] at hc
      norm_num [insideUpTo, toggles, vtx, predIdx] at hc)
    (by
      intro i f hi hf
      have h0 : i = 0 := by omega
      subst h0
      cases hf
      simp [farZone])

/-- C1 (counterexample): in the store that holds a zone whose `rings` array is
empty followed by the square zone, the square contains `(5, 5)`, yet the loop
throws at the first zone and selects nothing. -/
theorem selects_first_match_fails :
    ¬ SelectsFirstMatch [ringlessZone, squareZone] 5 5 ∧
      FirstRingContains 5 5 squareZone ∧
      analyzeAirspace [ringlessZone, squareZone] 5 5 = .networkError := by
  have hsq : FirstRingContains 5 5 squareZone := ⟨square, rfl, isPointInPoly_square_centre⟩
  refine ⟨?_, hsq, rfl⟩
  intro h
  obtain ⟨k, z, _, _, _, hc⟩ := h ⟨squareZone, by simp, hsq⟩
  simp [checkZones, ringlessZone] at hc

/-! ## `loadZones`: conversion and style -/

theorem convertFeatures_of_all (records : List RawRecord)
    (h : records.all (fun r => r.geometry.isSome) = true) :
    convertFeatures records = .ok (records.map (fun r => ⟨r.attributes, r.geometry.getD []⟩)) := by
  induction records with
  | nil => rfl
  | cons r rs ih =>
    simp only [List.all_cons, Bool.and_eq_true] at h
    rw [convertFeatures, toFeature]
    cases hg : r.geometry with
    | none => rw [hg] at h; simp at h
    | some rings => simp [ih h.2, hg]

theorem convertFeatures_of_not_all (records : List RawRecord)
    (h : records.all (fun r => r.geometry.isSome) = false) :
    convertFeatures records = .error .typeError := by
  induction records with
  | nil => simp at h
  | cons r rs ih =>
    rw [convertFeatures, toFeature]
    cases hg : r.geometry with
    | none => rfl
    | some rings =>
      simp only [List.all_cons, hg, Option.isSome_some, Bool.true_and] at h
      simp [ih h]

/-- C9 (amended): when every record has a geometry the store consists of all
the records, in source order, each with its attributes and its rings copied,
and no record is skipped, whatever the length of its first ring; when some
record has no geometry the conversion throws and the store stays empty. -/
theorem loadZones_all_or_nothing (records : List RawRecord) :
    (convertFeatures records =
      if records.all (fun r => r.geometry.isSome) then
        .ok (records.map (fun r => ⟨r.attributes, r.geometry.getD []⟩))
      else .error .typeError) ∧
    (loadZones records =
      if records.all (fun r => r.geometry.isSome) then
        records.map (fun r => ⟨r.attributes, r.geometry.getD []⟩)
      else []) := by
  unfold loadZones
  cases h : records.all (fun r => r.geometry.isSome) with
  | true => simp [convertFeatures_of_all records h]
  | false => simp [convertFeatures_of_not_all records h]

/-- C9 (counterexample): a record whose first ring has two points is kept in
the store, where the specification skips it; and one record without geometry
makes the whole conversion throw, so that the store loses the usable record
before it. -/
theorem loadZones_skips_nothing :
    usableRecord twoPointRecord = false ∧
    (loadZones [twoPointRecord]).length = 1 ∧
    (specStore [twoPointRecord]).length = 0 ∧
    loadZones [twoPointRecord] ≠ specStore [twoPointRecord] ∧
    convertFeatures [squareRecord, noGeometryRecord] = .error .typeError ∧
    (loadZones [squareRecord, noGeometryRecord]).length = 0 ∧
    (specStore [squareRecord, noGeometryRecord]).length = 1 := by
  refine ⟨rfl, rfl, rfl, ?_, rfl, rfl, ?_⟩
  · intro h
    have := congrArg List.length h
    simp [loadZones, convertFeatures, toFeature, twoPointRecord, specStore, usableRecord] at this
  · simp [specStore, usableRecord, squareRecord, noGeometryRecord, square]

theorem orEmpty_eq_getD (v : Option String) : orEmpty v = v.getD "" := by
  cases v with
  | none => rfl
  | some s =>
    by_cases h : s = ""
    · simp [orEmpty, h]
    · simp [orEmpty, h]

theorem includesChars_iff (s : List Char) :
    ∀ t : List Char, includesChars t s = true ↔ ∃ before after, t = before ++ s ++ after := by
  intro t
  induction t with
  | nil =>
    simp only [includesChars, List.isEmpty_iff]
    constructor
    · rintro rfl; exact ⟨[], [], rfl⟩
    · rintro ⟨b, a, h⟩
      have := congrArg List.length h
      simp at this
      exact List.length_eq_zero.mp (by omega)
  | cons c t ih =>
    simp only [includesChars, Bool.or_eq_true, ih, List.isPrefixOf_iff_prefix]
    constructor
    · rintro (⟨r, hr⟩ | ⟨b, a, h⟩)
      · exact ⟨[], r, by simpa using hr.symm⟩
      · exact ⟨c :: b, a, by simp [h]⟩
    · rintro ⟨b, a, h⟩
      cases b with
      | nil => exact Or.inl ⟨a, by simpa using h.symm⟩
      | cons c2 b2 =>
        simp only [List.cons_append, List.cons.injEq] at h
        exact Or.inr ⟨b2, a, h.2⟩

theorem includes_iff (t s : String) : includes t s = true ↔ HasSubstring t s :=
  includesChars_iff s.data t.data

theorem style_text (f : Feature) :
    orEmpty (f.properties "空域顏色") ++ orEmpty (f.properties "空域名稱") = zoneText f.properties := by
  simp [zoneText, orEmpty_eq_getD]

/-- C8: the colour of the style is `#ff453a` exactly when the colour value
followed by the name value (each empty when absent) contains the substring
"紅" or the substring "機場", and `#ffd60a` otherwise; a feature with the same
two attribute values gets the same style, whatever its geometry. -/
theorem style_classification (f g : Feature)
    (hc : g.properties "空域顏色" = f.properties "空域顏色")
    (hn : g.properties "空域名稱" = f.properties "空域名稱") :
    ((style f).color = "#ff453a" ↔
      (HasSubstring (zoneText f.properties) "紅" ∨ HasSubstring (zoneText f.properties) "機場")) ∧
    ((style f).color = "#ffd60a" ↔
      ¬ (HasSubstring (zoneText f.properties) "紅" ∨ HasSubstring (zoneText f.properties) "機場")) ∧
    style g = style f := by
  have hcol : (style f).color =
      if includes (zoneText f.properties) "紅" || includes (zoneText f.properties) "機場"
      then "#ff453a" else "#ffd60a" := by
    simp only [style, style_text]
  refine ⟨?_, ?_, ?_⟩
  · rw [hcol, ← includes_iff, ← includes_iff]
    cases h1 : includes (zoneText f.properties) "紅" <;>
      cases h2 : includes (zoneText f.properties) "機場" <;> simp
  · rw [hcol, ← includes_iff, ← includes_iff]
    cases h1 : includes (zoneText f.properties) "紅" <;>
      cases h2 : includes (zoneText f.properties) "機場" <;> simp
  · simp only [style, hc, hn]

theorem style_classification_witness :
    (style squareZone).color = "#ff453a" ∧
      (style ⟨mkAttrs "blue" "Zone B", [square]⟩).color = "#ffd60a" ∧
      style ⟨mkAttrs "紅" "Zone A", []⟩ = style squareZone := by
  refine ⟨?_, ?_, (style_classification squareZone ⟨mkAttrs "紅" "Zone A", []⟩ rfl rfl).2.2⟩
  · decide
  · decide

/-! ## The L-shaped ring -/

theorem insideUpTo_ellRing_notch (x y : ℚ) (hx : 5 < x) (hy1 : 5 < y) (hy2 : y < 10) :
    insideUpTo x y ellRing ellRing.length = false := by
  have a1 : ¬ y < 0 := by linarith
  have a2 : ¬ y < 5 := by linarith
  have a3 : ¬ x < 5 := by linarith
  have a4 : ¬ x < 0 := by linarith
  simp only [ellRing, insideUpTo, toggles, vtx, predIdx, List.length, List.getD]
  norm_num [a1, a2, a3, a4, hy2]

theorem insideUpTo_ellRing_left_arm (x y : ℚ) (hx1 : 0 < x) (hx2 : x < 5) (hy1 : 0 < y)
    (hy2 : y < 10) : insideUpTo x y ellRing ellRing.length = true := by
  have a1 : ¬ y < 0 := by linarith
  have a4 : ¬ x < 0 := by linarith
  have a5 : x < 10 := by linarith
  simp only [ellRing, insideUpTo, toggles, vtx, predIdx, List.length, List.getD]
  by_cases h5 : y < 5
  · norm_num [a1, a4, a5, hx2, hy2, h5]
  · norm_num [a1, a4, a5, hx2, hy2, h5]

theorem insideUpTo_ellRing_low_arm (x y : ℚ) (hx1 : 0 < x) (hx2 : x < 10) (hy1 : 0 < y)
    (hy2 : y < 5) : insideUpTo x y ellRing ellRing.length = true := by
  have a1 : ¬ y < 0 := by linarith
  have a4 : ¬ x < 0 := by linarith
  have a5 : y < 10 := by linarith
  simp only [ellRing, insideUpTo, toggles, vtx, predIdx, List.length, List.getD]
  norm_num [a1, a4, a5, hx2, hy2]

/-- C6: for the L-shaped ring, `isPointInPoly` returns false at every point of
the concave notch and true at every point of the two filled arms. -/
theorem isPointInPoly_ellRing (x y : ℚ) :
    (5 < x ∧ x < 10 ∧ 5 < y ∧ y < 10 → isPointInPoly x y ellRing = .ok false) ∧
    ((0 < x ∧ x < 5 ∧ 0 < y ∧ y < 10) ∨ (0 < x ∧ x < 10 ∧ 0 < y ∧ y < 5) →
      isPointInPoly x y ellRing = .ok true) := by
  rw [isPointInPoly_eq]
  constructor
  · rintro ⟨h1, _, h3, h4⟩
    rw [insideUpTo_ellRing_notch x y h1 h3 h4]
  · rintro (⟨h1, h2, h3, h4⟩ | ⟨h1, h2, h3, h4⟩)
    · rw [insideUpTo_ellRing_left_arm x y h1 h2 h3 h4]
    · rw [insideUpTo_ellRing_low_arm x y h1 h2 h3 h4]

theorem isPointInPoly_ellRing_witness :
    isPointInPoly 7 7 ellRing = .ok false ∧ isPointInPoly 2 5 ellRing = .ok true ∧
      isPointInPoly 5 2 ellRing = .ok true :=
  ⟨(isPointInPoly_ellRing 7 7).1 (by norm_num),
   (isPointInPoly_ellRing 2 5).2 (Or.inl (by norm_num)),
   (isPointInPoly_ellRing 5 2).2 (Or.inr (by norm_num))⟩

/-! ## Points outside the bounding box -/

end Drone
